import Mathlib

/-!
Verification development for the CloudIoTPy offline store-and-forward
subsystem (`cloudiotpy/offline_storage/*`, `cloudiotpy/iot/*`,
`cloudiotpy/common/exceptions.py`).

The Python code is shallowly embedded: each Python method relevant to a
claim becomes an executable Lean function over an explicit state type.
Messages (Python `dict`s produced by `json.loads` / fed to `json.dumps`)
are modelled as insertion-ordered association lists over a value universe
sufficient for the claims (null, integers, strings); real dicts have
pairwise-distinct keys, captured by the `msgWF` predicate where a proof
needs it.  On-disk JSON text is modelled at the granularity the code
observes it: a list of raw records, each either decodable to a message or
malformed.
-/

namespace CloudIoTPy

/-- A JSON value as far as the claims need it.  (Python `bool` payloads are
omitted from the universe so that the `isinstance(row_id, int)` check in
`SQLiteOfflineStorage.remove_messages` has a single corresponding
constructor, `jint`.) -/
inductive JVal where
  | jnull
  | jint (n : Int)
  | jstr (s : String)
deriving DecidableEq, Repr

/-- A Python dict as an insertion-ordered association list. -/
abbrev Msg := List (String × JVal)

/-- Real Python dicts never hold a key twice. -/
def msgWF (m : Msg) : Prop := (m.map Prod.fst).Nodup

instance (m : Msg) : Decidable (msgWF m) := by unfold msgWF; infer_instance

/-- `m.get(k)` / `m[k]` read access: first binding of the key wins. -/
def getKey (m : Msg) (k : String) : Option JVal :=
  (m.find? (fun p => p.1 == k)).map Prod.snd

/-- `m[k] = v` dict assignment: overwrite an existing binding, else append. -/
def setKey (m : Msg) (k : String) (v : JVal) : Msg :=
  if m.any (fun p => p.1 == k) then
    m.map (fun p => if p.1 == k then (k, v) else p)
  else
    m ++ [(k, v)]

/-- Python `dict` equality (`==`): same key set, same value at each key.
Used by `list.__contains__` and `list.remove` in the JSON backend. -/
def msgSub (a b : Msg) : Bool := a.all (fun p => getKey b p.1 == some p.2)

def msgEqv (a b : Msg) : Bool := msgSub a b && msgSub b a

/-- One raw record of persisted text: either it decodes to a message or it
is malformed (unparseable text, or a parse result the code cannot treat as
a dict — both paths raise and are handled identically). -/
inductive RawRecord where
  | good (m : Msg)
  | bad
deriving DecidableEq, Repr

/-! ## JSONOfflineStorage (`offline_storage_json.py`)

The on-disk state is `Option (List RawRecord)`: `none` means the file does
not exist.  `json.load` parses the whole file at once, so one malformed
fragment fails the entire parse. -/

abbrev JState := Option (List RawRecord)

/-- The result of `json.load` on a file holding the given raw records:
`some` of the decoded messages when the whole text parses, `none` (an
exception) as soon as any fragment is malformed. -/
def decodeArray : List RawRecord → Option (List Msg)
  | [] => some []
  | .good m :: rest => (decodeArray rest).map (fun l => m :: l)
  | .bad :: _ => none

/-- `JSONOfflineStorage._load_entire_list`: missing file gives `[]`; a
parse failure is caught by `handle_exceptions(default_return_value=[])`
and also gives `[]`. -/
def json_load_entire (s : JState) : List Msg :=
  match s with
  | none => []
  | some recs => (decodeArray recs).getD []

/-- `JSONOfflineStorage._save_entire_list`: an empty list unlinks the file
(if present); otherwise the file is overwritten with the serialized list. -/
def json_save_entire (all_data : List Msg) : JState :=
  if all_data.isEmpty then none else some (all_data.map .good)

/-- `JSONOfflineStorage.add_messages`. -/
def json_add_messages (s : JState) (messages : List Msg) : JState :=
  if messages.isEmpty then s
  else json_save_entire (json_load_entire s ++ messages)

/-- `JSONOfflineStorage.load_messages`: a pure read (the method body only
calls `_load_entire_list`), so the state is returned unchanged. -/
def json_load_messages (s : JState) (limit : Int) : List Msg × JState :=
  let current := json_load_entire s
  (if limit ≤ 0 then current else current.take limit.toNat, s)

/-- `msg in current` for a list of dicts. -/
def containsMsg (l : List Msg) (m : Msg) : Bool := l.any (fun x => msgEqv x m)

/-- `current.remove(msg)`: drop the first dict-equal occurrence. -/
def removeFirst : List Msg → Msg → List Msg
  | [], _ => []
  | x :: xs, m => if msgEqv x m then xs else x :: removeFirst xs m

/-- The removal loop of `JSONOfflineStorage.remove_messages`: for each
requested message in order, remove one matching occurrence if present and
count it. -/
def removeLoop (cur : List Msg) : List Msg → List Msg × Nat
  | [] => (cur, 0)
  | msg :: rest =>
    if containsMsg cur msg then
      let r := removeLoop (removeFirst cur msg) rest
      (r.1, r.2 + 1)
    else removeLoop cur rest

/-- `JSONOfflineStorage.remove_messages`: returns the removed count and the
new on-disk state. -/
def json_remove_messages (s : JState) (messages : List Msg) : Nat × JState :=
  if messages.isEmpty then (0, s)
  else
    let r := removeLoop (json_load_entire s) messages
    (r.2, json_save_entire r.1)

/-! ## SQLiteOfflineStorage (`offline_storage_sqlite.py`)

The table `offline_messages (id INTEGER PRIMARY KEY AUTOINCREMENT, data
TEXT NOT NULL)` is a list of `(id, payload)` rows.  AUTOINCREMENT hands out
strictly increasing ids, tracked by `nextId`; inserts append, so the row
list is kept in ascending-id order and `SELECT ... ORDER BY id ASC` is the
list read in order (an invariant stated by `SqliteDB.WF`).  `json.dumps`
on a model message always succeeds and round-trips, so a stored payload is
`RawRecord.good` of the message itself. -/

structure SqliteDB where
  rows : List (Nat × RawRecord)
  nextId : Nat
deriving DecidableEq, Repr

/-- Model invariant matching the schema: ids strictly increase along the
row list and sit below the AUTOINCREMENT counter. -/
def SqliteDB.WF (db : SqliteDB) : Prop :=
  db.rows.Chain' (fun a b => a.1 < b.1) ∧ ∀ r ∈ db.rows, r.1 < db.nextId

/-- `SQLiteOfflineStorage._init_db`, run unconditionally by `__init__`:
`sqlite3.connect` creates the database file if absent and
`CREATE TABLE IF NOT EXISTS` ensures the (initially empty) table.  `none`
models "no database file on disk". -/
def sqlite_init_state : Option SqliteDB → Option SqliteDB
  | none => some ⟨[], 1⟩
  | some db => some db

/-- The insert loop of `add_messages`: one `INSERT` per message, each
consuming the next AUTOINCREMENT id. -/
def insertRows (db : SqliteDB) : List Msg → SqliteDB
  | [] => db
  | m :: rest => insertRows ⟨db.rows ++ [(db.nextId, .good m)], db.nextId + 1⟩ rest

/-- `SQLiteOfflineStorage.add_messages`. -/
def sqlite_add_messages (db : SqliteDB) (messages : List Msg) : SqliteDB :=
  if messages.isEmpty then db else insertRows db messages

/-- The per-row body of the `load_messages` result loop: `json.loads` the
payload and inject the row id as `'_db_id'`; a row that fails to parse is
logged and skipped. -/
def decodeRow (r : Nat × RawRecord) : Option Msg :=
  match r.2 with
  | .good m => some (setKey m "_db_id" (.jint (Int.ofNat r.1)))
  | .bad => none

/-- `SQLiteOfflineStorage.load_messages`: `SELECT id, data ... ORDER BY id
ASC [LIMIT ?]` (the limit applies to rows, before parsing), then the
decode-and-inject loop.  A pure read: the state passes through. -/
def sqlite_load_messages (db : SqliteDB) (limit : Int) : List Msg × SqliteDB :=
  let sel := if 0 < limit then db.rows.take limit.toNat else db.rows
  (sel.filterMap decodeRow, db)

/-- `SQLiteOfflineStorage.remove_messages`: collect the integer `'_db_id'`
of each message, then one `DELETE ... WHERE id IN (...)`; the returned
count is the statement's `rowcount`, the number of rows actually deleted. -/
def sqlite_remove_messages (db : SqliteDB) (messages : List Msg) : Nat × SqliteDB :=
  if messages.isEmpty then (0, db)
  else
    let row_ids := messages.filterMap (fun m =>
      match getKey m "_db_id" with
      | some (.jint i) => some i
      | _ => none)
    if row_ids.isEmpty then (0, db)
    else
      let remaining := db.rows.filter (fun r => !(row_ids.contains (Int.ofNat r.1)))
      (db.rows.length - remaining.length, ⟨remaining, db.nextId⟩)

/-! ## OfflineStorageService (`offline_storage_service.py`)

The service holds one backend behind the `OfflineStorage` interface; the
parts of that interface `flush_data` uses are `load_messages` and
`remove_messages`.  The attached client is the provider IoT client; its
`send_telemetry` is modelled as an oracle `send : Nat → Bool` giving the
outcome of the n-th send call of the flush.  `flush_data`'s `while True`
loop is embedded with explicit fuel; every theorem about it supplies
enough fuel for the loop to reach its `break`. -/

structure Backend (σ : Type) where
  load_messages : σ → Int → List Msg × σ
  remove_messages : σ → List Msg → Nat × σ

def jsonBackend : Backend JState := ⟨json_load_messages, json_remove_messages⟩

def sqliteBackend : Backend SqliteDB := ⟨sqlite_load_messages, sqlite_remove_messages⟩

/-- The inner `for msg in batch` loop of `flush_data`: send each message in
order, stopping after the first failure.  Returns the number of successful
sends and the trace of messages actually passed to the endpoint's send
(the failing message, if any, was passed too). -/
def sendBatch (send : Nat → Bool) : Nat → List Msg → Nat × List Msg
  | _, [] => (0, [])
  | idx, m :: rest =>
    if send idx then
      let r := sendBatch send (idx + 1) rest
      (r.1 + 1, m :: r.2)
    else (0, [m])

/-- The `while True` loop of `OfflineStorageService.flush_data` (entered
with storage configured and the client connected): load a batch of 10,
send in order until a failure, remove the successfully sent prefix, and
continue only when the whole batch went through.  Returns the final
backend state and the full send trace. -/
def flush_loop {σ : Type} (B : Backend σ) (send : Nat → Bool) :
    Nat → Nat → σ → σ × List Msg
  | 0, _, st => (st, [])
  | fuel + 1, idx, st =>
    let lr := B.load_messages st 10
    if lr.1.isEmpty then (lr.2, [])
    else
      let sb := sendBatch send idx lr.1
      let st1 := if 0 < sb.1 then (B.remove_messages lr.2 (lr.1.take sb.1)).2 else lr.2
      if sb.1 < lr.1.length then (st1, sb.2)
      else
        let r := flush_loop B send fuel (idx + sb.2.length) st1
        (r.1, sb.2 ++ r.2)

def flush_data {σ : Type} (B : Backend σ) (send : Nat → Bool) (fuel : Nat) (st : σ) :
    σ × List Msg :=
  flush_loop B send fuel 0 st

/-- `OfflineStorageService.add_message` with a configured JSON backend:
wraps the single message in a list and forwards to `add_messages`. -/
def service_add_message (s : JState) (data : Msg) : JState :=
  json_add_messages s [data]

/-! ## IoTManager.send_telemetry (`iot_manager.py`)

State observed by one call: whether `is_connected()` holds and whether the
client's `send_telemetry` would succeed.  The result records the returned
boolean, the offline storage state afterwards, and how many times the
endpoint's send was invoked. -/

def manager_send_telemetry (connected sendOk : Bool) (s : JState) (data : Msg) :
    Bool × JState × Nat :=
  if !connected then (false, service_add_message s data, 0)
  else if !sendOk then (false, service_add_message s data, 1)
  else (true, s, 1)

/-! ## reconnect (`aws_client.py` / `azure_client.py`, identical loops)

`connect()` outcomes and the jitter drawn by `random.uniform(0, 0.3 *
delay)` are oracles indexed by attempt number (numbered from 1).  Sleep
durations are rationals; the result records success, the number of connect
attempts made, and the list of sleep durations in order. -/

def reconnect_loop (conn : Nat → Bool) (jit : Nat → ℚ) :
    Nat → Nat → Bool × Nat × List ℚ
  | _, 0 => (false, 0, [])
  | attempt, remaining + 1 =>
    if conn attempt then (true, 1, [])
    else
      let delay : ℚ := 2 * 2 ^ (attempt - 1)
      let r := reconnect_loop conn jit (attempt + 1) remaining
      (r.1, r.2.1 + 1, (delay + jit attempt) :: r.2.2)

/-- `reconnect(max_retries)`: immediate success if already connected, else
the `for attempt in range(1, max_retries + 1)` loop with `base_delay =
2.0`.  Note the loop body sleeps after every failed `connect()`, the last
one included. -/
def reconnect (connected : Bool) (conn : Nat → Bool) (jit : Nat → ℚ)
    (max_retries : Nat) : Bool × Nat × List ℚ :=
  if connected then (true, 0, []) else reconnect_loop conn jit 1 max_retries

/-! ## handle_exceptions (`common/exceptions.py`)

The decorator's `except` ladder, including the environment dependence: the
optional `BotoClientError` and `MQTTException` classes are `None` when
their import failed, and CPython raises `TypeError` ("catching classes
that do not inherit from BaseException is not allowed") the moment an
active exception is matched against a `None` clause.  The Azure
`ClientError` is only used under an `is not None` guard inside the final
`except Exception`, so its availability is harmless. -/

inductive PyExc where
  | connectionError
  | valueError
  | fileNotFoundError
  | permissionError
  | botoClientError
  | mqttException
  | azureClientError
  | typeError
  | otherException
deriving DecidableEq, Repr

structure ExcEnv where
  botoAvailable : Bool
  mqttAvailable : Bool
  azureAvailable : Bool
deriving DecidableEq, Repr

/-- One call through the `handle_exceptions` wrapper: the body either
returns a value or raises; the wrapper's ladder either swallows the
exception (returning the configured default) or itself raises. -/
def handle_exceptions_run {α : Type} (env : ExcEnv) (default : α)
    (body : Except PyExc α) : Except PyExc α :=
  match body with
  | .ok v => .ok v
  | .error .connectionError => .ok default
  | .error .valueError => .ok default
  | .error .fileNotFoundError => .ok default
  | .error .permissionError => .ok default
  | .error e =>
    if env.botoAvailable = false then .error .typeError
    else if e = .botoClientError then .ok default
    else if env.mqttAvailable = false then .error .typeError
    else .ok default

/-! ## Dictionary lemmas -/

theorem find?_key_of_nodup (m : Msg) (k : String) (v : JVal)
    (hwf : msgWF m) (hmem : (k, v) ∈ m) :
    m.find? (fun p => p.1 == k) = some (k, v) := by
  induction m with
  | nil => cases hmem
  | cons p rest ih =>
    rcases List.mem_cons.mp hmem with h | h
    · subst h
      exact List.find?_cons_of_pos _ (by simp)
    · have hwf' : msgWF rest := by
        have := hwf
        simp only [msgWF, List.map_cons, List.nodup_cons] at this
        exact this.2
      have hk : k ∈ rest.map Prod.fst :=
        List.mem_map.mpr ⟨(k, v), h, rfl⟩
      have hne : (p.1 == k) = false := by
        by_contra hcon
        have hp1 : p.1 = k := by
          cases hb : (p.1 == k) with
          | false => exact absurd hb hcon
          | true => exact eq_of_beq hb
        have hnotin : p.1 ∉ rest.map Prod.fst := by
          have := hwf
          simp only [msgWF, List.map_cons, List.nodup_cons] at this
          exact this.1
        exact hnotin (hp1 ▸ hk)
      rw [List.find?_cons_of_neg _ (by simp [hne]), ih hwf' h]

theorem getKey_of_nodup (m : Msg) (k : String) (v : JVal)
    (hwf : msgWF m) (hmem : (k, v) ∈ m) : getKey m k = some v := by
  unfold getKey
  rw [find?_key_of_nodup m k v hwf hmem]
  rfl

theorem msgEqv_refl (m : Msg) (hwf : msgWF m) : msgEqv m m = true := by
  have hsub : msgSub m m = true := by
    unfold msgSub
    rw [List.all_eq_true]
    intro p hp
    rw [getKey_of_nodup m p.1 p.2 hwf hp]
    simp
  unfold msgEqv
  rw [hsub]
  rfl

theorem getKey_setKey (m : Msg) (k : String) (v : JVal) :
    getKey (setKey m k v) k = some v := by
  have hbase : ∀ l : List (String × JVal),
      (l.any fun q => q.1 == k) = false → getKey (l ++ [(k, v)]) k = some v := by
    intro l hl
    induction l with
    | nil =>
      unfold getKey
      rw [List.nil_append, List.find?_cons_of_pos _ (by simp)]
      rfl
    | cons q qs ihq =>
      rw [List.any_cons] at hl
      have hq : (q.1 == k) = false := by
        cases hb : (q.1 == k) with
        | false => rfl
        | true => rw [hb] at hl; simp at hl
      have hqs : (qs.any fun q => q.1 == k) = false := by
        cases hb : (qs.any fun q => q.1 == k) with
        | false => rfl
        | true => rw [hb] at hl; simp at hl
      rw [List.cons_append]
      unfold getKey
      rw [List.find?_cons_of_neg _ (by simp [hq])]
      exact ihq hqs
  have hmap : ∀ l : List (String × JVal),
      getKey (l.map fun p => if p.1 == k then (k, v) else p) k = some v
        ∨ (l.any fun q => q.1 == k) = false := by
    intro l
    induction l with
    | nil => exact Or.inr rfl
    | cons q qs ihq =>
      by_cases hq : (q.1 == k) = true
      · refine Or.inl ?_
        unfold getKey
        simp only [List.map_cons, if_pos hq]
        rw [List.find?_cons_of_pos _ (by simp)]
        rfl
      · have hq' : (q.1 == k) = false := by
          cases hb : (q.1 == k) with
          | false => rfl
          | true => exact absurd hb hq
        rcases ihq with hgood | hnone
        · refine Or.inl ?_
          unfold getKey
          simp only [List.map_cons, if_neg hq]
          rw [List.find?_cons_of_neg _ (by simp [hq'])]
          exact hgood
        · refine Or.inr ?_
          rw [List.any_cons, hq', hnone]
          rfl
  unfold setKey
  by_cases hm : (m.any fun p => p.1 == k) = true
  · rw [if_pos hm]
    rcases hmap m with hgood | hnone
    · exact hgood
    · rw [hnone] at hm
      simp at hm
  · have hm' : (m.any fun p => p.1 == k) = false := by
      cases hb : (m.any fun p => p.1 == k) with
      | false => rfl
      | true => exact absurd hb hm
    rw [if_neg hm]
    exact hbase m hm'

/-! ## JSON file round-trip lemmas -/

theorem decodeArray_map_good (l : List Msg) :
    decodeArray (l.map .good) = some l := by
  induction l with
  | nil => rfl
  | cons m rest ih => simp [decodeArray, ih]

theorem json_load_save (l : List Msg) :
    json_load_entire (json_save_entire l) = l := by
  by_cases h : l.isEmpty = true
  · rw [List.isEmpty_iff] at h
    subst h
    rfl
  · unfold json_save_entire
    rw [if_neg h]
    show (decodeArray (l.map .good)).getD [] = l
    rw [decodeArray_map_good]
    rfl

theorem json_load_add (s : JState) (messages : List Msg) :
    json_load_entire (json_add_messages s messages)
      = json_load_entire s ++ messages := by
  by_cases h : messages.isEmpty = true
  · rw [List.isEmpty_iff] at h
    subst h
    simp [json_add_messages]
  · unfold json_add_messages
    rw [if_neg h, json_load_save]

theorem json_fold_add (ms : List Msg) (s : JState) :
    json_load_entire (ms.foldl (fun st m => json_add_messages st [m]) s)
      = json_load_entire s ++ ms := by
  induction ms generalizing s with
  | nil => simp
  | cons m rest ih =>
    rw [List.foldl_cons, ih, json_load_add]
    simp

/-- C3: FIFO drain contract of the file-based backend.  Starting from a
fresh store, after `add(m1), ..., add(mn)` with no removal in between,
`load_messages(0)` returns `[m1, ..., mn]` in insertion order; for `limit
> 0` it returns the first `min(limit, n)` of them; and `load_messages`
leaves the stored contents unchanged. -/
theorem C3_json_fifo_drain (ms : List Msg) (limit : Int) (hpos : 0 < limit) :
    (json_load_messages (ms.foldl (fun st m => json_add_messages st [m]) none) 0).1
        = ms ∧
    (json_load_messages (ms.foldl (fun st m => json_add_messages st [m]) none) limit).1
        = ms.take limit.toNat ∧
    (json_load_messages (ms.foldl (fun st m => json_add_messages st [m]) none) limit).2
        = ms.foldl (fun st m => json_add_messages st [m]) none := by
  have hload := json_fold_add ms none
  simp only [json_load_entire] at hload
  refine ⟨?_, ?_, rfl⟩
  · simp [json_load_messages, hload, json_load_entire]
  · simp [json_load_messages, hload, json_load_entire, not_le.mpr hpos]

/-- Witness for C3 at `ms = [{"a": 1}, {"b": 2}, {"c": 3}]`, `limit = 2`. -/
theorem C3_witness :
    (0 : Int) < 2 ∧
    ((json_load_messages
        ([[("a", JVal.jint 1)], [("b", JVal.jint 2)], [("c", JVal.jint 3)]].foldl
          (fun st m => json_add_messages st [m]) none) 0).1
        = [[("a", JVal.jint 1)], [("b", JVal.jint 2)], [("c", JVal.jint 3)]] ∧
      (json_load_messages
        ([[("a", JVal.jint 1)], [("b", JVal.jint 2)], [("c", JVal.jint 3)]].foldl
          (fun st m => json_add_messages st [m]) none) 2).1
        = [[("a", JVal.jint 1)], [("b", JVal.jint 2)], [("c", JVal.jint 3)]].take
            (Int.toNat 2) ∧
      (json_load_messages
        ([[("a", JVal.jint 1)], [("b", JVal.jint 2)], [("c", JVal.jint 3)]].foldl
          (fun st m => json_add_messages st [m]) none) 2).2
        = [[("a", JVal.jint 1)], [("b", JVal.jint 2)], [("c", JVal.jint 3)]].foldl
            (fun st m => json_add_messages st [m]) none) :=
  ⟨by decide,
   C3_json_fifo_drain
     [[("a", JVal.jint 1)], [("b", JVal.jint 2)], [("c", JVal.jint 3)]] 2 (by decide)⟩

/-! ## Removal lemmas -/

theorem removeFirst_length (l : List Msg) (m : Msg)
    (h : containsMsg l m = true) : (removeFirst l m).length + 1 = l.length := by
  induction l with
  | nil => simp [containsMsg] at h
  | cons x xs ih =>
    by_cases hx : msgEqv x m = true
    · simp [removeFirst, hx]
    · have hx' : msgEqv x m = false := by
        cases hb : msgEqv x m with
        | false => rfl
        | true => exact absurd hb hx
      have hxs : containsMsg xs m = true := by
        unfold containsMsg at h ⊢
        rw [List.any_cons, hx'] at h
        simpa using h
      unfold removeFirst
      rw [if_neg hx, List.length_cons, List.length_cons, ih hxs]

theorem removeLoop_count (messages : List Msg) :
    ∀ cur : List Msg,
      (removeLoop cur messages).2 + (removeLoop cur messages).1.length
        = cur.length := by
  induction messages with
  | nil => intro cur; simp [removeLoop]
  | cons msg rest ih =>
    intro cur
    by_cases hc : containsMsg cur msg = true
    · have := ih (removeFirst cur msg)
      have hlen := removeFirst_length cur msg hc
      simp only [removeLoop, hc, if_pos]
      omega
    · have hc' : containsMsg cur msg = false := by
        cases hb : containsMsg cur msg with
        | false => rfl
        | true => exact absurd hb hc
      simp only [removeLoop, hc', Bool.false_eq_true, if_false]
      exact ih cur

theorem removeLoop_none (messages : List Msg) (cur : List Msg)
    (h : ∀ m ∈ messages, containsMsg cur m = false) :
    removeLoop cur messages = (cur, 0) := by
  induction messages with
  | nil => rfl
  | cons msg rest ih =>
    have hmsg := h msg (List.mem_cons_self _ _)
    simp only [removeLoop, hmsg, Bool.false_eq_true, if_false]
    exact ih (fun m hm => h m (List.mem_cons_of_mem _ hm))

/-- Removing the length-`k` front prefix of a store of well-formed dicts
drops exactly that prefix and counts `k`. -/
theorem removeLoop_take_drop (k : Nat) :
    ∀ cur : List Msg, (∀ m ∈ cur, msgWF m) → k ≤ cur.length →
      removeLoop cur (cur.take k) = (cur.drop k, k) := by
  induction k with
  | zero => intro cur _ _; simp [removeLoop]
  | succ k ih =>
    intro cur hwf hk
    match cur with
    | [] => simp at hk
    | m :: rest =>
      have hm : msgWF m := hwf m (List.mem_cons_self _ _)
      have hcm : containsMsg (m :: rest) m = true := by
        unfold containsMsg
        rw [List.any_cons, msgEqv_refl m hm]
        rfl
      have hrm : removeFirst (m :: rest) m = rest := by
        unfold removeFirst
        rw [if_pos (msgEqv_refl m hm)]
      have hih := ih rest (fun x hx => hwf x (List.mem_cons_of_mem _ hx))
        (by simpa using hk)
      have hstep : removeLoop (m :: rest) ((m :: rest).take (k + 1))
          = ((removeLoop rest (rest.take k)).1,
             (removeLoop rest (rest.take k)).2 + 1) := by
        simp only [List.take_succ_cons, removeLoop, hcm, if_pos, hrm]
      rw [hstep, hih]
      rfl

/-- C9: both backends report the exact number of records actually removed,
and entries that match nothing in the store are silently ignored and not
counted.  For the file-based backend the count plus the records left
equals the records held before; for the embedded-SQL backend the deleted
`rowcount` plus the remaining rows equals the rows held before, and ids
matching no row contribute nothing. -/
theorem C9_remove_returns_removed_count :
    (∀ (s : JState) (messages : List Msg),
      (json_remove_messages s messages).1
          + (json_load_entire (json_remove_messages s messages).2).length
        = (json_load_entire s).length ∧
      ((∀ m ∈ messages, containsMsg (json_load_entire s) m = false) →
        (json_remove_messages s messages).1 = 0)) ∧
    (∀ (db : SqliteDB) (messages : List Msg),
      (sqlite_remove_messages db messages).1
          + (sqlite_remove_messages db messages).2.rows.length
        = db.rows.length ∧
      ((∀ m ∈ messages, ∀ i : Int,
          getKey m "_db_id" = some (.jint i) → ∀ r ∈ db.rows, Int.ofNat r.1 ≠ i) →
        (sqlite_remove_messages db messages).1 = 0)) := by
  constructor
  · intro s messages
    by_cases hemp : messages.isEmpty = true
    · constructor
      · unfold json_remove_messages
        rw [if_pos hemp]
        simp
      · intro _
        unfold json_remove_messages
        rw [if_pos hemp]
    · constructor
      · unfold json_remove_messages
        rw [if_neg hemp]
        simp only [json_load_save]
        have := removeLoop_count messages (json_load_entire s)
        omega
      · intro hnone
        unfold json_remove_messages
        rw [if_neg hemp]
        simp only [removeLoop_none messages (json_load_entire s) hnone]
  · intro db messages
    by_cases hemp : messages.isEmpty = true
    · constructor
      · unfold sqlite_remove_messages
        rw [if_pos hemp]
        simp
      · intro _
        unfold sqlite_remove_messages
        rw [if_pos hemp]
    · by_cases hids : (messages.filterMap (fun m =>
          match getKey m "_db_id" with
          | some (.jint i) => some i
          | _ => none)).isEmpty = true
      · constructor
        · unfold sqlite_remove_messages
          rw [if_neg hemp, if_pos hids]
          simp
        · intro _
          unfold sqlite_remove_messages
          rw [if_neg hemp, if_pos hids]
      · have hflen : (db.rows.filter (fun r =>
            !((messages.filterMap (fun m =>
                match getKey m "_db_id" with
                | some (.jint i) => some i
                | _ => none)).contains (Int.ofNat r.1)))).length ≤ db.rows.length :=
          List.length_filter_le _ _
        constructor
        · unfold sqlite_remove_messages
          rw [if_neg hemp, if_neg hids]
          simp only
          omega
        · intro hnone
          unfold sqlite_remove_messages
          rw [if_neg hemp, if_neg hids]
          simp only
          have hkeep : db.rows.filter (fun r =>
              !((messages.filterMap (fun m =>
                  match getKey m "_db_id" with
                  | some (.jint i) => some i
                  | _ => none)).contains (Int.ofNat r.1))) = db.rows := by
            apply List.filter_eq_self.mpr
            intro r hr
            rw [Bool.not_eq_true']
            rw [List.contains_eq_any_beq]
            apply List.any_eq_false.mpr
            intro i hi
            rcases List.mem_filterMap.mp hi with ⟨m, hm, hmi⟩
            have : getKey m "_db_id" = some (.jint i) := by
              cases hg : getKey m "_db_id" with
              | none => rw [hg] at hmi; simp at hmi
              | some v =>
                cases v with
                | jnull => rw [hg] at hmi; simp at hmi
                | jstr sv => rw [hg] at hmi; simp at hmi
                | jint n =>
                  rw [hg] at hmi
                  simp only [Option.some.injEq] at hmi
                  rw [hmi]
            have hne := hnone m hm i this r hr
            simp only [beq_iff_eq]
            exact fun hcon => hne hcon
          rw [hkeep]
          omega

/-- Witness for C9 with a store holding `{"a": 1}` and a removal request
for a present and an absent message (file backend), and a two-row database
with one matching and one stale id (SQL backend). -/
theorem C9_witness :
    ((json_remove_messages (some [.good [("a", JVal.jint 1)]])
        [[("a", JVal.jint 1)], [("zz", JVal.jint 9)]]).1
        + (json_load_entire (json_remove_messages (some [.good [("a", JVal.jint 1)]])
            [[("a", JVal.jint 1)], [("zz", JVal.jint 9)]]).2).length
      = (json_load_entire (some [.good [("a", JVal.jint 1)]])).length) ∧
    ((sqlite_remove_messages ⟨[(1, .good [("b", JVal.jint 2)])], 2⟩
        [[("_db_id", JVal.jint 7)]]).1
        + (sqlite_remove_messages ⟨[(1, .good [("b", JVal.jint 2)])], 2⟩
            [[("_db_id", JVal.jint 7)]]).2.rows.length
      = ([(1, RawRecord.good [("b", JVal.jint 2)])] : List (Nat × RawRecord)).length) :=
  ⟨(C9_remove_returns_removed_count.1 (some [.good [("a", JVal.jint 1)]])
      [[("a", JVal.jint 1)], [("zz", JVal.jint 9)]]).1,
   (C9_remove_returns_removed_count.2 ⟨[(1, .good [("b", JVal.jint 2)])], 2⟩
      [[("_db_id", JVal.jint 7)]]).1⟩

/-! ## SQLite insert lemmas -/

/-- The rows appended by the insert loop of `add_messages`: the messages
tagged with consecutive AUTOINCREMENT ids starting at `n`. -/
def tagFrom (n : Nat) : List Msg → List (Nat × RawRecord)
  | [] => []
  | m :: rest => (n, .good m) :: tagFrom (n + 1) rest

/-- What `load_messages` yields for the rows `tagFrom n msgs`. -/
def loadedFrom (n : Nat) : List Msg → List Msg
  | [] => []
  | m :: rest => setKey m "_db_id" (.jint (Int.ofNat n)) :: loadedFrom (n + 1) rest

/-- The consecutive ids `n, n+1, ..., n+len-1` as integers. -/
def intRange (n : Nat) : Nat → List Int
  | 0 => []
  | len + 1 => Int.ofNat n :: intRange (n + 1) len

theorem tagFrom_length (messages : List Msg) :
    ∀ n : Nat, (tagFrom n messages).length = messages.length := by
  induction messages with
  | nil => intro n; rfl
  | cons m rest ih => intro n; simp [tagFrom, ih]

theorem tagFrom_id_bounds (messages : List Msg) :
    ∀ (n : Nat) (r : Nat × RawRecord), r ∈ tagFrom n messages →
      n ≤ r.1 ∧ r.1 < n + messages.length := by
  induction messages with
  | nil => intro n r hr; cases hr
  | cons m rest ih =>
    intro n r hr
    rcases List.mem_cons.mp hr with h | h
    · subst h; simp
    · have := ih (n + 1) r h
      constructor
      · omega
      · simp only [List.length_cons]
        omega

theorem insertRows_eq (messages : List Msg) :
    ∀ db : SqliteDB, insertRows db messages
      = ⟨db.rows ++ tagFrom db.nextId messages, db.nextId + messages.length⟩ := by
  induction messages with
  | nil => intro db; simp [insertRows, tagFrom]
  | cons m rest ih =>
    intro db
    rw [insertRows, ih]
    rw [SqliteDB.mk.injEq]
    constructor
    · rw [List.append_assoc]
      rfl
    · simp only [List.length_cons]
      omega

theorem tagFrom_filterMap (messages : List Msg) :
    ∀ n : Nat, (tagFrom n messages).filterMap decodeRow = loadedFrom n messages := by
  induction messages with
  | nil => intro n; rfl
  | cons m rest ih =>
    intro n
    simp only [tagFrom, List.filterMap_cons, decodeRow, loadedFrom, ih]

theorem loadedFrom_ids (messages : List Msg) :
    ∀ n : Nat, (loadedFrom n messages).filterMap (fun m =>
        match getKey m "_db_id" with
        | some (.jint i) => some i
        | _ => none)
      = intRange n messages.length := by
  induction messages with
  | nil => intro n; rfl
  | cons m rest ih =>
    intro n
    simp only [loadedFrom, List.filterMap_cons, getKey_setKey, List.length_cons, intRange,
      ih]

theorem mem_intRange (len : Nat) :
    ∀ (n : Nat) (i : Int), i ∈ intRange n len
      ↔ (Int.ofNat n ≤ i ∧ i < Int.ofNat (n + len)) := by
  induction len with
  | zero =>
    intro n i
    simp only [intRange, List.not_mem_nil, false_iff, Int.ofNat_eq_natCast]
    omega
  | succ len ih =>
    intro n i
    simp only [intRange, List.mem_cons, ih (n + 1), Int.ofNat_eq_natCast]
    omega

theorem contains_int_of_mem {l : List Int} {a : Int} (h : a ∈ l) :
    l.contains a = true := by
  rw [List.contains_eq_any_beq]
  exact List.any_eq_true.mpr ⟨a, h, by simp⟩

theorem contains_int_of_not_mem {l : List Int} {a : Int} (h : a ∉ l) :
    l.contains a = false := by
  rw [List.contains_eq_any_beq]
  apply List.any_eq_false.mpr
  intro x hx
  simp only [beq_iff_eq]
  intro hax
  exact h (by rw [hax]; exact hx)

/-- C8: after adding a non-empty batch and then acknowledging exactly what
was added, the file-based backend's file no longer exists; the
embedded-SQL backend's row set (hence row count) is back to its pre-add
value, while the table itself persists. -/
theorem C8_add_remove_roundtrip :
    (∀ msgs : List Msg, msgs ≠ [] → (∀ m ∈ msgs, msgWF m) →
      json_remove_messages (json_add_messages none msgs) msgs
        = (msgs.length, none)) ∧
    (∀ (db : SqliteDB) (msgs : List Msg), db.WF → msgs ≠ [] →
      (sqlite_remove_messages (sqlite_add_messages db msgs)
          ((sqlite_load_messages (sqlite_add_messages db msgs) 0).1.drop
            (sqlite_load_messages db 0).1.length)).1 = msgs.length ∧
      (sqlite_remove_messages (sqlite_add_messages db msgs)
          ((sqlite_load_messages (sqlite_add_messages db msgs) 0).1.drop
            (sqlite_load_messages db 0).1.length)).2.rows = db.rows) := by
  constructor
  · intro msgs hne hwf
    have hemp : msgs.isEmpty = false := by
      cases msgs with
      | nil => exact absurd rfl hne
      | cons a l => rfl
    have hadd : json_add_messages none msgs = json_save_entire msgs := by
      unfold json_add_messages
      rw [if_neg (by rw [hemp]; simp)]
      rfl
    rw [hadd]
    unfold json_remove_messages
    rw [if_neg (by rw [hemp]; simp), json_load_save]
    have := removeLoop_take_drop msgs.length msgs hwf le_rfl
    rw [List.take_length] at this
    rw [this, List.drop_length]
    rfl
  · intro db msgs hWF hne
    have hemp : msgs.isEmpty = false := by
      cases msgs with
      | nil => exact absurd rfl hne
      | cons a l => rfl
    set n := db.nextId with hn
    have hadd : sqlite_add_messages db msgs
        = ⟨db.rows ++ tagFrom n msgs, n + msgs.length⟩ := by
      unfold sqlite_add_messages
      rw [if_neg (by rw [hemp]; simp)]
      exact insertRows_eq msgs db
    have hloadall : (sqlite_load_messages (sqlite_add_messages db msgs) 0).1
        = db.rows.filterMap decodeRow ++ loadedFrom n msgs := by
      rw [hadd]
      unfold sqlite_load_messages
      simp only [show ¬((0 : Int) < 0) by omega, if_neg, not_false_iff]
      rw [List.filterMap_append, tagFrom_filterMap]
    have hloadpre : (sqlite_load_messages db 0).1 = db.rows.filterMap decodeRow := by
      unfold sqlite_load_messages
      simp only [show ¬((0 : Int) < 0) by omega, if_neg, not_false_iff]
    have hdrop : (sqlite_load_messages (sqlite_add_messages db msgs) 0).1.drop
        (sqlite_load_messages db 0).1.length = loadedFrom n msgs := by
      rw [hloadall, hloadpre, List.drop_left]
    rw [hdrop, hadd]
    have hloadne : loadedFrom n msgs ≠ [] := by
      cases msgs with
      | nil => exact absurd rfl hne
      | cons a l => simp [loadedFrom]
    have hloademp : (loadedFrom n msgs).isEmpty = false := by
      cases hl : loadedFrom n msgs with
      | nil => exact absurd hl hloadne
      | cons a l => rfl
    have hids : (loadedFrom n msgs).filterMap (fun m =>
        match getKey m "_db_id" with
        | some (.jint i) => some i
        | _ => none) = intRange n msgs.length := loadedFrom_ids msgs n
    have hidsemp : (intRange n msgs.length).isEmpty = false := by
      cases msgs with
      | nil => exact absurd rfl hne
      | cons a l => rfl
    have hfilter : (db.rows ++ tagFrom n msgs).filter (fun r =>
        !((intRange n msgs.length).contains (Int.ofNat r.1))) = db.rows := by
      rw [List.filter_append]
      have h1 : db.rows.filter (fun r =>
          !((intRange n msgs.length).contains (Int.ofNat r.1))) = db.rows := by
        apply List.filter_eq_self.mpr
        intro r hr
        have hlt : r.1 < n := hWF.2 r hr
        have hnm : Int.ofNat r.1 ∉ intRange n msgs.length := by
          rw [mem_intRange]
          simp only [Int.ofNat_eq_natCast]
          omega
        rw [contains_int_of_not_mem hnm]
        rfl
      have h2 : (tagFrom n msgs).filter (fun r =>
          !((intRange n msgs.length).contains (Int.ofNat r.1))) = [] := by
        apply List.filter_eq_nil_iff.mpr
        intro r hr
        have hb := tagFrom_id_bounds msgs n r hr
        have hm : Int.ofNat r.1 ∈ intRange n msgs.length := by
          rw [mem_intRange]
          simp only [Int.ofNat_eq_natCast]
          omega
        rw [contains_int_of_mem hm]
        simp
      rw [h1, h2, List.append_nil]
    unfold sqlite_remove_messages
    rw [if_neg (by rw [hloademp]; simp)]
    rw [hids]
    rw [if_neg (by rw [hidsemp]; simp)]
    simp only [hfilter]
    constructor
    · simp only [List.length_append, tagFrom_length]
      omega
    · trivial

/-- Witness for C8: file backend with `[{"x": 1}]`; SQL backend holding one
prior row, adding `[{"y": 2}]` and acknowledging the loaded copy. -/
theorem C8_witness :
    (json_remove_messages (json_add_messages none [[("x", JVal.jint 1)]])
        [[("x", JVal.jint 1)]] = (1, none)) ∧
    ((sqlite_remove_messages
        (sqlite_add_messages ⟨[(1, .good [("a", JVal.jint 0)])], 2⟩ [[("y", JVal.jint 2)]])
        ((sqlite_load_messages
            (sqlite_add_messages ⟨[(1, .good [("a", JVal.jint 0)])], 2⟩
              [[("y", JVal.jint 2)]]) 0).1.drop
          (sqlite_load_messages ⟨[(1, .good [("a", JVal.jint 0)])], 2⟩ 0).1.length)).1 = 1 ∧
      (sqlite_remove_messages
        (sqlite_add_messages ⟨[(1, .good [("a", JVal.jint 0)])], 2⟩ [[("y", JVal.jint 2)]])
        ((sqlite_load_messages
            (sqlite_add_messages ⟨[(1, .good [("a", JVal.jint 0)])], 2⟩
              [[("y", JVal.jint 2)]]) 0).1.drop
          (sqlite_load_messages ⟨[(1, .good [("a", JVal.jint 0)])], 2⟩ 0).1.length)).2.rows
        = [(1, .good [("a", JVal.jint 0)])]) :=
  ⟨C8_add_remove_roundtrip.1 [[("x", JVal.jint 1)]] (by decide) (by decide),
   C8_add_remove_roundtrip.2 ⟨[(1, .good [("a", JVal.jint 0)])], 2⟩ [[("y", JVal.jint 2)]]
     (by
       refine ⟨List.chain'_singleton _, ?_⟩
       intro r hr
       rw [List.mem_singleton] at hr
       subst hr
       decide)
     (by decide)⟩

/-! ## Decode-failure behaviour (C6) -/

theorem decodeArray_of_bad (recs : List RawRecord) (h : RawRecord.bad ∈ recs) :
    decodeArray recs = none := by
  induction recs with
  | nil => cases h
  | cons r rest ih =>
    cases r with
    | bad => rfl
    | good m =>
      have hrest : RawRecord.bad ∈ rest := by
        rcases List.mem_cons.mp h with h' | h'
        · cases h'
        · exact h'
      simp [decodeArray, ih hrest]

/-- C6 counterexample: a file whose stored content holds one decodable
record and one malformed fragment.  The claim says the drain still returns
the decodable record `{"a": 1}`; the file-based backend's whole-file
`json.load` fails instead and the drain returns nothing. -/
theorem C6_counterexample :
    (json_load_messages (some [.good [("a", JVal.jint 1)], .bad]) 0).1 = [] ∧
    (json_load_messages (some [.good [("a", JVal.jint 1)], .bad]) 0).1
      ≠ [[("a", JVal.jint 1)]] := by
  constructor
  · rfl
  · decide

/-- C6 (amended): only the embedded-SQL backend isolates decode failures
per record — a malformed row is invisible to the drain and every decodable
row is still returned with its injected id; for the file-based backend a
single malformed fragment is fatal to the whole drain, which returns `[]`. -/
theorem C6_decode_failure_isolation :
    (∀ (pre post : List (Nat × RawRecord)) (nid bid : Nat),
      (sqlite_load_messages ⟨pre ++ (bid, .bad) :: post, nid⟩ 0).1
        = (sqlite_load_messages ⟨pre ++ post, nid⟩ 0).1) ∧
    (∀ (db : SqliteDB) (id : Nat) (m : Msg), (id, RawRecord.good m) ∈ db.rows →
      setKey m "_db_id" (.jint (Int.ofNat id)) ∈ (sqlite_load_messages db 0).1) ∧
    (∀ recs : List RawRecord, RawRecord.bad ∈ recs →
      (json_load_messages (some recs) 0).1 = []) := by
  refine ⟨?_, ?_, ?_⟩
  · intro pre post nid bid
    unfold sqlite_load_messages
    simp only [show ¬((0 : Int) < 0) by omega, if_neg, not_false_iff]
    rw [List.filterMap_append, List.filterMap_cons, List.filterMap_append]
    rfl
  · intro db id m hmem
    unfold sqlite_load_messages
    simp only [show ¬((0 : Int) < 0) by omega, if_neg, not_false_iff]
    exact List.mem_filterMap.mpr ⟨(id, .good m), hmem, rfl⟩
  · intro recs hbad
    have h0 : (json_load_messages (some recs) 0).1 = json_load_entire (some recs) := rfl
    rw [h0]
    show (decodeArray recs).getD [] = []
    rw [decodeArray_of_bad recs hbad]
    rfl

/-- Witness for C6 at one-row instances of each conjunct. -/
theorem C6_witness :
    ((sqlite_load_messages ⟨[] ++ (5, .bad) :: [(6, .good [("a", JVal.jint 1)])], 7⟩ 0).1
      = (sqlite_load_messages ⟨[] ++ [(6, .good [("a", JVal.jint 1)])], 7⟩ 0).1) ∧
    (setKey [("a", JVal.jint 1)] "_db_id" (.jint (Int.ofNat 6))
      ∈ (sqlite_load_messages ⟨[(5, .bad), (6, .good [("a", JVal.jint 1)])], 7⟩ 0).1) ∧
    ((json_load_messages (some [.bad]) 0).1 = []) :=
  ⟨C6_decode_failure_isolation.1 [] [(6, .good [("a", JVal.jint 1)])] 7 5,
   C6_decode_failure_isolation.2.1 ⟨[(5, .bad), (6, .good [("a", JVal.jint 1)])], 7⟩ 6
     [("a", JVal.jint 1)] (by decide),
   C6_decode_failure_isolation.2.2 [.bad] (by decide)⟩

/-! ## Lazy-creation behaviour (C7) -/

/-- C7 counterexample: the embedded-SQL backend's constructor runs
`_init_db`, which creates the database file and table before any enqueue,
so on-disk state exists while the claim says none may. -/
theorem C7_counterexample :
    sqlite_init_state none ≠ none ∧ sqlite_init_state none = some ⟨[], 1⟩ := by
  constructor
  · decide
  · rfl

/-- C7 (amended): an empty enqueue is a no-op on both backends and creates
nothing; the file-based backend creates its file only on the first
non-empty enqueue; the embedded-SQL backend creates its database file and
empty table eagerly at construction, before any enqueue. -/
theorem C7_lazy_creation :
    (json_add_messages none [] = none) ∧
    (∀ s : JState, json_add_messages s [] = s) ∧
    (∀ msgs : List Msg, msgs ≠ [] → json_add_messages none msgs ≠ none) ∧
    (∀ db : SqliteDB, sqlite_add_messages db [] = db) ∧
    (sqlite_init_state none = some ⟨[], 1⟩) := by
  refine ⟨rfl, fun s => rfl, ?_, fun db => rfl, rfl⟩
  intro msgs hne
  have hemp : msgs.isEmpty = false := by
    cases msgs with
    | nil => exact absurd rfl hne
    | cons a l => rfl
  unfold json_add_messages
  rw [if_neg (by rw [hemp]; simp)]
  unfold json_save_entire
  rw [if_neg (by
    have happ : json_load_entire none ++ msgs = msgs := rfl
    rw [happ, hemp]
    simp)]
  simp

/-- Witness for C7 at the singleton message `{"a": 1}`. -/
theorem C7_witness :
    (json_add_messages none [] = none) ∧
    (json_add_messages (some [.good [("b", JVal.jint 2)]]) []
      = some [.good [("b", JVal.jint 2)]]) ∧
    (json_add_messages none [[("a", JVal.jint 1)]] ≠ none) ∧
    (sqlite_add_messages ⟨[], 1⟩ [] = ⟨[], 1⟩) ∧
    (sqlite_init_state none = some ⟨[], 1⟩) :=
  ⟨C7_lazy_creation.1,
   C7_lazy_creation.2.1 (some [.good [("b", JVal.jint 2)]]),
   C7_lazy_creation.2.2.1 [[("a", JVal.jint 1)]] (by decide),
   C7_lazy_creation.2.2.2.1 ⟨[], 1⟩,
   C7_lazy_creation.2.2.2.2⟩

/-! ## IoTManager.send_telemetry (C5) -/

/-- C5: with offline storage configured, `send_telemetry` never invokes
the endpoint's send while disconnected and buffers the message instead,
returning `false`; a connected send failure equally buffers and returns
`false` after exactly one send invocation.  In both cases the message is
present in the backend afterwards.  (No exception escapes: the embedding
is total because every fallible callee — the service's `add_message` and
the provider's `send_telemetry` — is wrapped by `handle_exceptions` and
reduced to a value.) -/
theorem C5_send_telemetry_never_raises (connected sendOk : Bool) (s : JState)
    (data : Msg) :
    (connected = false →
      manager_send_telemetry connected sendOk s data
        = (false, service_add_message s data, 0)) ∧
    (connected = true → sendOk = false →
      manager_send_telemetry connected sendOk s data
        = (false, service_add_message s data, 1)) ∧
    json_load_entire (service_add_message s data) = json_load_entire s ++ [data] ∧
    data ∈ json_load_entire (service_add_message s data) := by
  refine ⟨?_, ?_, json_load_add s [data], ?_⟩
  · intro hc
    subst hc
    rfl
  · intro hc hs
    subst hc
    subst hs
    rfl
  · show data ∈ json_load_entire (json_add_messages s [data])
    rw [json_load_add s [data]]
    exact List.mem_append_right _ (List.mem_singleton_self data)

/-- Witness for C5: disconnected and connected-but-failing calls on an
empty backend with message `{"t": 1}`. -/
theorem C5_witness :
    (manager_send_telemetry false true none [("t", JVal.jint 1)]
      = (false, service_add_message none [("t", JVal.jint 1)], 0)) ∧
    (manager_send_telemetry true false none [("t", JVal.jint 1)]
      = (false, service_add_message none [("t", JVal.jint 1)], 1)) ∧
    [("t", JVal.jint 1)]
      ∈ json_load_entire (service_add_message none [("t", JVal.jint 1)]) :=
  ⟨(C5_send_telemetry_never_raises false true none [("t", JVal.jint 1)]).1 rfl,
   (C5_send_telemetry_never_raises true false none [("t", JVal.jint 1)]).2.1 rfl rfl,
   (C5_send_telemetry_never_raises false true none [("t", JVal.jint 1)]).2.2.2⟩

/-! ## Reconnect backoff (C4) -/

/-- The sleeps performed by failed attempts `start, start+1, ...`:
`base_delay * 2^(attempt-1)` plus that attempt's jitter. -/
def sleepsFrom (jit : Nat → ℚ) (start : Nat) : Nat → List ℚ
  | 0 => []
  | r + 1 => (2 * 2 ^ (start - 1) + jit start) :: sleepsFrom jit (start + 1) r

theorem sleepsFrom_length (jit : Nat → ℚ) (remaining : Nat) :
    ∀ start : Nat, (sleepsFrom jit start remaining).length = remaining := by
  induction remaining with
  | zero => intro start; rfl
  | succ r ih => intro start; simp [sleepsFrom, ih]

theorem sleepsFrom_get (jit : Nat → ℚ) (remaining : Nat) :
    ∀ (start i : Nat) (hi : i < (sleepsFrom jit start remaining).length),
      (sleepsFrom jit start remaining).get ⟨i, hi⟩
        = 2 * 2 ^ (start + i - 1) + jit (start + i) := by
  induction remaining with
  | zero =>
    intro start i hi
    simp [sleepsFrom] at hi
  | succ r ih =>
    intro start i hi
    match i with
    | 0 => simp [sleepsFrom]
    | j + 1 =>
      have hj : j < (sleepsFrom jit (start + 1) r).length := by
        simp only [sleepsFrom, List.length_cons] at hi
        omega
      show (sleepsFrom jit (start + 1) r).get ⟨j, hj⟩ = _
      rw [ih (start + 1) j hj]
      have h1 : start + 1 + j = start + (j + 1) := by omega
      rw [h1]

theorem reconnect_loop_all_fail (conn : Nat → Bool) (jit : Nat → ℚ)
    (remaining : Nat) :
    ∀ start : Nat, (∀ a, start ≤ a → a < start + remaining → conn a = false) →
      reconnect_loop conn jit start remaining
        = (false, remaining, sleepsFrom jit start remaining) := by
  induction remaining with
  | zero => intro start _; rfl
  | succ r ih =>
    intro start hfail
    have hc : conn start = false := hfail start le_rfl (by omega)
    have hrest := ih (start + 1) (fun a ha1 ha2 => hfail a (by omega) (by omega))
    simp only [reconnect_loop, hc, Bool.false_eq_true, if_false, hrest, sleepsFrom]

theorem reconnect_loop_success (k : Nat) :
    ∀ (conn : Nat → Bool) (jit : Nat → ℚ) (start remaining : Nat),
      conn (start + k) = true →
      (∀ a, start ≤ a → a < start + k → conn a = false) →
      k + 1 ≤ remaining →
      reconnect_loop conn jit start remaining
        = (true, k + 1, sleepsFrom jit start k) := by
  induction k with
  | zero =>
    intro conn jit start remaining hc _ hrem
    match remaining with
    | 0 => omega
    | r + 1 =>
      rw [Nat.add_zero] at hc
      simp only [reconnect_loop, hc, if_pos]
      rfl
  | succ k ih =>
    intro conn jit start remaining hc hfail hrem
    match remaining with
    | 0 => omega
    | r + 1 =>
      have hstart : conn start = false := hfail start le_rfl (by omega)
      have hrest := ih conn jit (start + 1) r
        (by rw [show start + 1 + k = start + (k + 1) by omega]; exact hc)
        (fun a ha1 ha2 => hfail a (by omega) (by omega))
        (by omega)
      simp only [reconnect_loop, hstart, Bool.false_eq_true, if_false, hrest, sleepsFrom]

/-- C4 counterexample: with `max_retries = 1`, a failing `connect()` and
zero jitter, the claim's "no sleep follows the last attempt" predicts an
empty sleep list, but the loop body sleeps `base_delay * 2^0 = 2` after
the only (hence last) attempt. -/
theorem C4_counterexample :
    (reconnect false (fun _ => false) (fun _ => 0) 1).2.2 ≠ [] ∧
    reconnect false (fun _ => false) (fun _ => 0) 1 = (false, 1, [(2 : ℚ)]) := by
  constructor
  · intro h
    simp [reconnect, reconnect_loop] at h
  · simp only [reconnect, Bool.false_eq_true, if_false, reconnect_loop]
    norm_num

/-- C4 (amended): when `connect()` fails on every attempt,
`reconnect(max_retries)` makes exactly `max_retries` attempts and returns
failure, sleeping after every failed attempt — the last included, so there
are `max_retries` sleeps, not `max_retries - 1` — each sleep lying in
`[base_delay * 2^(attempt-1), 1.3 * base_delay * 2^(attempt-1))` with
`base_delay = 2`; when the first success is at attempt `k`, it returns
success immediately after `k` attempts with only the `k - 1` earlier
sleeps (none after the successful attempt). -/
theorem C4_backoff_schedule :
    (∀ (max_retries : Nat) (conn : Nat → Bool) (jit : Nat → ℚ),
      (∀ a, 1 ≤ a → a ≤ max_retries → conn a = false) →
      (∀ a, 0 ≤ jit a ∧ jit a < 3 / 10 * (2 * 2 ^ (a - 1))) →
      (reconnect false conn jit max_retries).1 = false ∧
      (reconnect false conn jit max_retries).2.1 = max_retries ∧
      (reconnect false conn jit max_retries).2.2.length = max_retries ∧
      (∀ (i : Nat) (hi : i < (reconnect false conn jit max_retries).2.2.length),
        2 * 2 ^ i ≤ (reconnect false conn jit max_retries).2.2.get ⟨i, hi⟩ ∧
        (reconnect false conn jit max_retries).2.2.get ⟨i, hi⟩
          < 13 / 10 * (2 * 2 ^ i))) ∧
    (∀ (max_retries k : Nat) (conn : Nat → Bool) (jit : Nat → ℚ),
      1 ≤ k → k ≤ max_retries → conn k = true →
      (∀ a, 1 ≤ a → a < k → conn a = false) →
      reconnect false conn jit max_retries
        = (true, k, sleepsFrom jit 1 (k - 1))) := by
  constructor
  · intro max_retries conn jit hfail hjit
    have hloop := reconnect_loop_all_fail conn jit max_retries 1
      (fun a ha1 ha2 => hfail a ha1 (by omega))
    have hrec : reconnect false conn jit max_retries
        = (false, max_retries, sleepsFrom jit 1 max_retries) := by
      unfold reconnect
      rw [if_neg (by simp), hloop]
    rw [hrec]
    refine ⟨rfl, rfl, sleepsFrom_length jit max_retries 1, ?_⟩
    intro i hi
    have hget := sleepsFrom_get jit max_retries 1 i hi
    rw [hget]
    have hsub : 1 + i - 1 = i := by omega
    rw [hsub]
    have hj := hjit (1 + i)
    rw [hsub] at hj
    constructor
    · have := hj.1
      linarith
    · have h2 : (0 : ℚ) < 2 * 2 ^ i := by positivity
      have := hj.2
      linarith
  · intro max_retries k conn jit hk1 hkmax hck hfail
    have hloop := reconnect_loop_success (k - 1) conn jit 1 max_retries
      (by rw [show 1 + (k - 1) = k by omega]; exact hck)
      (fun a ha1 ha2 => hfail a ha1 (by omega))
      (by omega)
    unfold reconnect
    rw [if_neg (by simp), hloop, show k - 1 + 1 = k by omega]

/-- Witness for C4 at `max_retries = 2` always failing with zero jitter,
and a first-attempt success. -/
theorem C4_witness :
    ((reconnect false (fun _ => false) (fun _ => 0) 2).1 = false ∧
     (reconnect false (fun _ => false) (fun _ => 0) 2).2.1 = 2 ∧
     (reconnect false (fun _ => false) (fun _ => 0) 2).2.2.length = 2 ∧
     (∀ (i : Nat) (hi : i < (reconnect false (fun _ => false) (fun _ => 0) 2).2.2.length),
       2 * 2 ^ i ≤ (reconnect false (fun _ => false) (fun _ => 0) 2).2.2.get ⟨i, hi⟩ ∧
       (reconnect false (fun _ => false) (fun _ => 0) 2).2.2.get ⟨i, hi⟩
         < 13 / 10 * (2 * 2 ^ i))) ∧
    reconnect false (fun _ => true) (fun _ => 0) 3 = (true, 1, sleepsFrom (fun _ => 0) 1 0) :=
  ⟨C4_backoff_schedule.1 2 (fun _ => false) (fun _ => 0)
     (fun a _ _ => rfl) (fun a => ⟨le_refl 0, by positivity⟩),
   C4_backoff_schedule.2 3 1 (fun _ => true) (fun _ => 0)
     le_rfl (by omega) rfl (fun a ha1 ha2 => absurd (lt_of_le_of_lt ha1 ha2) (lt_irrefl 1))⟩

/-! ## The `_db_id` leak (C2) -/

/-- C2: the backend-assigned `'_db_id'` is NOT stripped before
transmission.  Starting from a database holding row 1 with payload
`{"a": 1}` and an always-succeeding endpoint, the single message the flush
passes to the endpoint's send is `{"a": 1, "_db_id": 1}` — still carrying
the identifier — and differs from the originally enqueued `{"a": 1}`. -/
theorem C2_db_id_reaches_endpoint :
    flush_data sqliteBackend (fun _ => true) 2 ⟨[(1, .good [("a", JVal.jint 1)])], 2⟩
      = (⟨[], 2⟩, [[("a", JVal.jint 1), ("_db_id", JVal.jint 1)]]) ∧
    getKey [("a", JVal.jint 1), ("_db_id", JVal.jint 1)] "_db_id"
      = some (JVal.jint 1) ∧
    [("a", JVal.jint 1), ("_db_id", JVal.jint 1)] ≠ [("a", JVal.jint 1)] := by
  refine ⟨?_, rfl, by decide⟩
  rfl

/-! ## handle_exceptions wrapper (C10) -/

/-- C10: with every optional provider exception class imported, the
wrapper converts any raised exception into the configured default and a
normal return passes through; but in an environment where the `botocore`
module failed to import (`BotoClientError = None`), an exception that
reaches that clause makes the wrapper itself raise `TypeError` — the exception
propagates to the caller instead of the default being returned. -/
theorem C10_handle_exceptions_default :
    (∀ (d : Nat) (e : PyExc),
      handle_exceptions_run ⟨true, true, true⟩ d (.error e) = .ok d) ∧
    (∀ (d v : Nat),
      handle_exceptions_run ⟨true, true, true⟩ d (.ok v) = .ok v) ∧
    handle_exceptions_run (α := Nat) ⟨false, true, true⟩ 0 (.error .otherException)
      = .error .typeError := by
  refine ⟨?_, ?_, rfl⟩
  · intro d e
    cases e <;> rfl
  · intro d v
    rfl

/-! ## Flush semantics (C1)

`sendBatch send idx batch` sends the batch in order starting at global
call index `idx` and stops after the first failure.  Its trace is a front
prefix of the batch; the success count equals the trace length exactly
when the whole batch went through, and otherwise is one less (the last
call failed). -/

theorem sendBatch_spec (send : Nat → Bool) (batch : List Msg) :
    ∀ idx : Nat,
      (sendBatch send idx batch).2 = batch.take (sendBatch send idx batch).2.length ∧
      (sendBatch send idx batch).2.length ≤ batch.length ∧
      ((sendBatch send idx batch).1 = (sendBatch send idx batch).2.length ∧
          (sendBatch send idx batch).2.length = batch.length ∨
        (sendBatch send idx batch).1 + 1 = (sendBatch send idx batch).2.length) ∧
      (∀ i, i < (sendBatch send idx batch).1 → send (idx + i) = true) ∧
      ((sendBatch send idx batch).1 + 1 = (sendBatch send idx batch).2.length →
        send (idx + (sendBatch send idx batch).1) = false) := by
  induction batch with
  | nil =>
    intro idx
    refine ⟨rfl, le_rfl, Or.inl ⟨rfl, rfl⟩, ?_, ?_⟩
    · intro i hi
      simp [sendBatch] at hi
    · intro h
      simp [sendBatch] at h
  | cons m rest ih =>
    intro idx
    by_cases hs : send idx = true
    · have hstep : sendBatch send idx (m :: rest)
          = ((sendBatch send (idx + 1) rest).1 + 1,
             m :: (sendBatch send (idx + 1) rest).2) := by
        simp [sendBatch, hs]
      obtain ⟨h1, h2, h3, h4, h5⟩ := ih (idx + 1)
      rw [hstep]
      refine ⟨?_, ?_, ?_, ?_, ?_⟩
      · simp only [List.length_cons, List.take_succ_cons]
        rw [← h1]
      · simp only [List.length_cons]
        omega
      · rcases h3 with ⟨ha, hb⟩ | hb
        · exact Or.inl ⟨by simp only [List.length_cons]; omega,
            by simp only [List.length_cons]; omega⟩
        · exact Or.inr (by simp only [List.length_cons]; omega)
      · intro i hi
        match i with
        | 0 => rw [Nat.add_zero]; exact hs
        | j + 1 =>
          have := h4 j (by omega)
          rw [show idx + (j + 1) = idx + 1 + j by omega]
          exact this
      · intro h
        have hpre : (sendBatch send (idx + 1) rest).1 + 1
            = (sendBatch send (idx + 1) rest).2.length := by
          simp only [List.length_cons] at h
          omega
        have := h5 hpre
        rw [show idx + ((sendBatch send (idx + 1) rest).1 + 1)
            = idx + 1 + (sendBatch send (idx + 1) rest).1 by omega]
        exact this
    · have hs' : send idx = false := by
        cases hb : send idx with
        | false => rfl
        | true => exact absurd hb hs
      have hstep : sendBatch send idx (m :: rest) = (0, [m]) := by
        simp [sendBatch, hs']
      rw [hstep]
      refine ⟨rfl, by simp, Or.inr rfl, ?_, ?_⟩
      · intro i hi
        omega
      · intro _
        rw [Nat.add_zero]
        exact hs'

theorem take_length_take {α : Type} (l : List α) (n : Nat) :
    l.take ((l.take n).length) = l.take n := by
  rw [List.length_take]
  rcases Nat.le_total n l.length with h | h
  · rw [Nat.min_eq_left h]
  · rw [Nat.min_eq_right h, List.take_length, List.take_of_length_le h]

/-- One unfolding of the flush loop, with the loaded batch, the send
results, and the post-removal state abstracted into the equation. -/
theorem flush_loop_step {σ : Type} (B : Backend σ) (send : Nat → Bool)
    (fuel idx : Nat) (st : σ) :
    flush_loop B send (fuel + 1) idx st
      = (if (B.load_messages st 10).1.isEmpty then ((B.load_messages st 10).2, [])
        else
          if (sendBatch send idx (B.load_messages st 10).1).1
              < (B.load_messages st 10).1.length then
            ((if 0 < (sendBatch send idx (B.load_messages st 10).1).1 then
                (B.remove_messages (B.load_messages st 10).2
                  ((B.load_messages st 10).1.take
                    (sendBatch send idx (B.load_messages st 10).1).1)).2
              else (B.load_messages st 10).2),
             (sendBatch send idx (B.load_messages st 10).1).2)
          else
            ((flush_loop B send fuel
                (idx + (sendBatch send idx (B.load_messages st 10).1).2.length)
                (if 0 < (sendBatch send idx (B.load_messages st 10).1).1 then
                  (B.remove_messages (B.load_messages st 10).2
                    ((B.load_messages st 10).1.take
                      (sendBatch send idx (B.load_messages st 10).1).1)).2
                else (B.load_messages st 10).2)).1,
             (sendBatch send idx (B.load_messages st 10).1).2
               ++ (flush_loop B send fuel
                    (idx + (sendBatch send idx (B.load_messages st 10).1).2.length)
                    (if 0 < (sendBatch send idx (B.load_messages st 10).1).1 then
                      (B.remove_messages (B.load_messages st 10).2
                        ((B.load_messages st 10).1.take
                          (sendBatch send idx (B.load_messages st 10).1).1)).2
                    else (B.load_messages st 10).2)).2)) := rfl

/-- One flush over the file-based backend, started at any send-call index:
the trace of sent messages is a front prefix of the store, at most one
send (the last) failed, and exactly the successfully sent prefix of `k`
records has been removed from the backend. -/
theorem flush_loop_drains_front (send : Nat → Bool) :
    ∀ (fuel : Nat) (store : List Msg) (idx : Nat),
      (∀ m ∈ store, msgWF m) → store.length < fuel →
      ∃ k : Nat,
        (flush_loop jsonBackend send fuel idx (json_save_entire store)).2
          = store.take
              (flush_loop jsonBackend send fuel idx (json_save_entire store)).2.length ∧
        k ≤ (flush_loop jsonBackend send fuel idx (json_save_entire store)).2.length ∧
        (flush_loop jsonBackend send fuel idx (json_save_entire store)).2.length
          ≤ k + 1 ∧
        json_load_entire
            (flush_loop jsonBackend send fuel idx (json_save_entire store)).1
          = store.drop k ∧
        (∀ i, i < k → send (idx + i) = true) ∧
        (k + 1 = (flush_loop jsonBackend send fuel idx (json_save_entire store)).2.length →
          send (idx + k) = false) := by
  intro fuel
  induction fuel with
  | zero =>
    intro store idx _ hlen
    omega
  | succ fuel ih =>
    intro store idx hwf hlen
    have hload : jsonBackend.load_messages (json_save_entire store) 10
        = (store.take 10, json_save_entire store) := by
      show json_load_messages (json_save_entire store) 10 = _
      unfold json_load_messages
      rw [json_load_save]
      show (if (10 : Int) ≤ 0 then store else store.take (Int.toNat 10),
          json_save_entire store) = (store.take 10, json_save_entire store)
      rw [if_neg (by norm_num)]
      rfl
    obtain ⟨succ, tr, hsb⟩ : ∃ a b, sendBatch send idx (store.take 10) = (a, b) :=
      ⟨(sendBatch send idx (store.take 10)).1,
       (sendBatch send idx (store.take 10)).2, rfl⟩
    obtain ⟨hb1, hb2, hb3, hb4, hb5⟩ := sendBatch_spec send (store.take 10) idx
    rw [hsb] at hb1 hb2 hb3 hb4 hb5
    dsimp only at hb1 hb2 hb3 hb4 hb5
    by_cases hbatch : (store.take 10).isEmpty = true
    · have hstore : store = [] := by
        rw [List.isEmpty_iff] at hbatch
        rcases List.take_eq_nil_iff.mp hbatch with h | h
        all_goals first
          | exact h
          | exact absurd h (by norm_num)
      subst hstore
      have hres : flush_loop jsonBackend send (fuel + 1) idx (json_save_entire [])
          = (json_save_entire [], []) := by
        rw [flush_loop_step, hload]
        simp
      refine ⟨0, ?_⟩
      rw [hres]
      dsimp only
      refine ⟨rfl, le_rfl, by simp, rfl, ?_, ?_⟩
      · intro i hi
        omega
      · intro h
        simp at h
    · have hbatch' : (store.take 10).isEmpty = false := by
        cases hb : (store.take 10).isEmpty with
        | false => rfl
        | true => exact absurd hb hbatch
      have hsucc_le_tl : succ ≤ tr.length := by
        rcases hb3 with ⟨ha, _⟩ | hb
        · omega
        · omega
      have htl10 : (store.take 10).length ≤ 10 := by
        rw [List.length_take]
        omega
      have hblen_store : (store.take 10).length ≤ store.length := by
        rw [List.length_take]
        omega
      have hsucc_store : succ ≤ store.length := by omega
      have hsucc10 : succ ≤ 10 := by omega
      have htake_take : (store.take 10).take succ = store.take succ := by
        rw [List.take_take, Nat.min_eq_left hsucc10]
      have hst1 : (if 0 < succ then
            (jsonBackend.remove_messages (json_save_entire store)
              ((store.take 10).take succ)).2
          else json_save_entire store)
          = json_save_entire (store.drop succ) := by
        by_cases h0 : 0 < succ
        · rw [if_pos h0, htake_take]
          show (json_remove_messages (json_save_entire store) (store.take succ)).2 = _
          unfold json_remove_messages
          have hlentake : (store.take succ).length = succ := by
            rw [List.length_take]
            omega
          rw [if_neg (by
            intro hcon
            rw [List.isEmpty_iff] at hcon
            rw [hcon] at hlentake
            simp at hlentake
            omega)]
          rw [json_load_save, removeLoop_take_drop succ store hwf hsucc_store]
        · rw [if_neg h0, show succ = 0 by omega, List.drop_zero]
      by_cases hcont : succ < (store.take 10).length
      · have hres : flush_loop jsonBackend send (fuel + 1) idx (json_save_entire store)
            = (json_save_entire (store.drop succ), tr) := by
          rw [flush_loop_step, hload]
          dsimp only
          rw [hsb]
          dsimp only
          rw [if_neg (by rw [hbatch']; simp), if_pos hcont, hst1]
        refine ⟨succ, ?_⟩
        rw [hres]
        dsimp only
        refine ⟨?_, hsucc_le_tl, ?_, json_load_save _, hb4, hb5⟩
        · rw [hb1, List.take_take, Nat.min_eq_left (le_trans hb2 htl10),
            take_length_take]
        · rcases hb3 with ⟨ha, hfull⟩ | hb
          · omega
          · omega
      · have hfull : succ = (store.take 10).length ∧ tr.length = (store.take 10).length := by
          rcases hb3 with ⟨ha, hb⟩ | hb
          · omega
          · omega
        have hbpos : 0 < (store.take 10).length := by
          cases hb : store.take 10 with
          | nil => rw [hb] at hbatch'; simp at hbatch'
          | cons a l => simp
        obtain ⟨st', tr', hfl⟩ : ∃ a b,
            flush_loop jsonBackend send fuel (idx + tr.length)
              (json_save_entire (store.drop succ)) = (a, b) :=
          ⟨_, _, rfl⟩
        have hres : flush_loop jsonBackend send (fuel + 1) idx (json_save_entire store)
            = (st', tr ++ tr') := by
          rw [flush_loop_step, hload]
          dsimp only
          rw [hsb]
          dsimp only
          rw [if_neg (by rw [hbatch']; simp), if_neg hcont, hst1, hfl]
        obtain ⟨k', hk1, hk2, hk3, hk4, hk5, hk6⟩ :=
          ih (store.drop succ) (idx + tr.length)
            (fun m hm => hwf m (List.mem_of_mem_drop hm))
            (by
              rw [List.length_drop]
              omega)
        rw [hfl] at hk1 hk2 hk3 hk4 hk6
        dsimp only at hk1 hk2 hk3 hk4 hk6
        have htr_store : tr = store.take succ := by
          rw [hb1, hfull.2, List.take_length, hfull.1, take_length_take]
        refine ⟨succ + k', ?_⟩
        rw [hres]
        dsimp only
        refine ⟨?_, ?_, ?_, ?_, ?_, ?_⟩
        · rw [List.length_append,
            show tr.length + tr'.length = succ + tr'.length by omega,
            List.take_add, ← htr_store, hk1, take_length_take]
        · rw [List.length_append]
          omega
        · rw [List.length_append]
          omega
        · rw [hk4, List.drop_drop]
        · intro i hi
          by_cases his : i < succ
          · exact hb4 i his
          · have := hk5 (i - succ) (by omega)
            rw [show idx + tr.length + (i - succ) = idx + i by omega] at this
            exact this
        · intro h
          rw [List.length_append] at h
          have hpre : k' + 1 = tr'.length := by omega
          have := hk6 hpre
          rw [show idx + tr.length + k' = idx + (succ + k') by omega] at this
          exact this
/-- C1: for every backend content and send-outcome oracle (given enough
fuel for the `while True` loop), `flush_data` sends a front prefix of the
drained records strictly in order, at most one send — the last — fails,
and it removes from the backend exactly the prefix of `k` successfully
sent records (nothing when the first send failed); in particular, with the
backend holding `[m1, m2, m3]` and an endpoint succeeding on the first
call and failing on the second, the backend afterwards holds exactly
`[m2, m3]` and send was invoked exactly twice. -/
theorem C1_flush_prefix_semantics :
    (∀ (store : List Msg) (send : Nat → Bool) (fuel : Nat),
      (∀ m ∈ store, msgWF m) → store.length < fuel →
      ∃ k : Nat,
        (flush_data jsonBackend send fuel (json_save_entire store)).2
          = store.take
              (flush_data jsonBackend send fuel (json_save_entire store)).2.length ∧
        k ≤ (flush_data jsonBackend send fuel (json_save_entire store)).2.length ∧
        (flush_data jsonBackend send fuel (json_save_entire store)).2.length ≤ k + 1 ∧
        json_load_entire (flush_data jsonBackend send fuel (json_save_entire store)).1
          = store.drop k ∧
        (∀ i, i < k → send i = true) ∧
        (k + 1 = (flush_data jsonBackend send fuel (json_save_entire store)).2.length →
          send k = false)) ∧
    (∀ m1 m2 m3 : Msg, msgWF m1 →
      flush_data jsonBackend (fun i => i == 0) 4 (json_save_entire [m1, m2, m3])
        = (json_save_entire [m2, m3], [m1, m2])) := by
  constructor
  · intro store send fuel hwf hfuel
    obtain ⟨k, h1, h2, h3, h4, h5, h6⟩ :=
      flush_loop_drains_front send fuel store 0 hwf hfuel
    refine ⟨k, h1, h2, h3, h4, ?_, ?_⟩
    · intro i hi
      have := h5 i hi
      rw [Nat.zero_add] at this
      exact this
    · intro h
      have := h6 h
      rw [Nat.zero_add] at this
      exact this
  · intro m1 m2 m3 hwf1
    have h1 : msgEqv m1 m1 = true := msgEqv_refl m1 hwf1
    have hsave : json_save_entire [m1, m2, m3] = some [.good m1, .good m2, .good m3] :=
      rfl
    have hload : jsonBackend.load_messages (json_save_entire [m1, m2, m3]) 10
        = ([m1, m2, m3], json_save_entire [m1, m2, m3]) := by
      show json_load_messages (json_save_entire [m1, m2, m3]) 10 = _
      unfold json_load_messages
      rw [json_load_save]
      show (if (10 : Int) ≤ 0 then [m1, m2, m3]
          else [m1, m2, m3].take (Int.toNat 10), json_save_entire [m1, m2, m3])
        = ([m1, m2, m3], json_save_entire [m1, m2, m3])
      rw [if_neg (by norm_num)]
      rfl
    have hsend : sendBatch (fun i => i == 0) 0 [m1, m2, m3] = (1, [m1, m2]) := by
      simp [sendBatch]
    have hrem : jsonBackend.remove_messages (json_save_entire [m1, m2, m3]) [m1]
        = (1, json_save_entire [m2, m3]) := by
      show json_remove_messages (json_save_entire [m1, m2, m3]) [m1] = _
      unfold json_remove_messages
      rw [if_neg (by simp), json_load_save]
      have hcont : containsMsg [m1, m2, m3] m1 = true := by
        unfold containsMsg
        rw [List.any_cons, h1]
        rfl
      have hrf : removeFirst [m1, m2, m3] m1 = [m2, m3] := by
        unfold removeFirst
        rw [if_pos h1]
      simp only [removeLoop, hcont, if_pos, hrf]
    show flush_loop jsonBackend (fun i => i == 0) 4 0 (json_save_entire [m1, m2, m3]) = _
    rw [show (4 : Nat) = 3 + 1 by rfl, flush_loop_step, hload]
    dsimp only
    rw [hsend]
    dsimp only
    rw [if_neg (by simp), if_pos (by simp), if_pos (by omega)]
    rw [show [m1, m2, m3].take 1 = [m1] by rfl, hrem]

/-- Witness for C1: the concrete scenario at messages `{"a": 1}`,
`{"b": 2}`, `{"c": 3}`. -/
theorem C1_witness :
    flush_data jsonBackend (fun i => i == 0) 4
        (json_save_entire [[("a", JVal.jint 1)], [("b", JVal.jint 2)], [("c", JVal.jint 3)]])
      = (json_save_entire [[("b", JVal.jint 2)], [("c", JVal.jint 3)]],
         [[("a", JVal.jint 1)], [("b", JVal.jint 2)]]) :=
  C1_flush_prefix_semantics.2 [("a", JVal.jint 1)] [("b", JVal.jint 2)]
    [("c", JVal.jint 3)] (by decide)

end CloudIoTPy
